import Mathlib

/-!
Verification of the golikejs concurrency primitives.

Shallow embedding of the TypeScript sources:
* `ChannelR` — ring-buffer channel (hash-private fields, `#buffer`/`#head`/`#tail`/`#count`)
* `ChannelU` — array-buffer channel (underscore-private fields, `_buffer`)
* `Mutex`, `RWMutex`, `Semaphore`, `WaitGroup` — peer primitives
* `select` — modelled from the specification (implementation not in the source tree)

The runtime is single-threaded and cooperatively scheduled, so each public
method is a pure state transformer: it takes the primitive's state and
returns an observable outcome together with the next state.  Continuations
stored in wait queues are represented by the data the source stores with
them (a pending sender's value; a pending receiver is payload-free, so
receiver queues are counted).  Resolutions delivered synchronously to
waiting parties are returned as part of the outcome.
-/

/-- Result delivered to a channel receiver: the source resolves receive
promises with either `[value, true]` or `[undefined, false]`, i.e. a pair of
an optional value and an ok-flag. -/
abbrev RcvResult (T : Type) := Option T × Bool

/-- Outcome of `ChannelR.receive`: resolve with `[value, true]` (the value is
read from a `(T | undefined)[]` slot, hence optional), resolve with the
closed signal `[undefined, false]`, or suspend by enqueuing a receiver. -/
inductive RcvOutcome (T : Type) where
  | val (v : Option T)
  | closedSig
  | suspended
  deriving DecidableEq, Repr

/-- Outcome of `ChannelR.send`: raise an error, hand the value directly to a
waiting receiver, store it in the ring buffer, or suspend as a send waiter. -/
inductive SendOutcome where
  | error (msg : String)
  | delivered
  | buffered
  | suspended
  deriving DecidableEq, Repr

/-- State of the ring-buffer channel class (source file with `#`-private
fields).  `buffer` has length `capacity` when buffered and is `[]` when
`capacity = 0` (the source keeps `null` then); `sendWaiters` stores the
queued senders' values in FIFO order; `receiveWaiters` counts the queued
receivers (their continuations carry no payload). -/
structure ChannelR (T : Type) where
  buffer : List (Option T)
  capacity : Nat
  head : Nat
  tail : Nat
  count : Nat
  closed : Bool
  sendWaiters : List T
  receiveWaiters : Nat
  deriving DecidableEq, Repr

/-- Constructor of the ring-buffer channel: allocates `capacity` empty slots
when `capacity > 0`. -/
def mkChannelR (T : Type) (capacity : Nat) : ChannelR T :=
  { buffer := List.replicate capacity none
    capacity := capacity
    head := 0
    tail := 0
    count := 0
    closed := false
    sendWaiters := []
    receiveWaiters := 0 }

/-- Logical FIFO contents of the ring buffer: the `count` slots starting at
`head`, wrapping modulo `capacity`. -/
def ChannelR.contentsO {T : Type} (s : ChannelR T) : List (Option T) :=
  (List.range s.count).map (fun i => s.buffer.getD ((s.head + i) % s.capacity) none)

/-- Private helper `#processSendWaiters`: while the buffer has space and a
sender is queued, move the oldest queued sender's value into the ring buffer
and resolve it. -/
def ChannelR.processSendWaiters {T : Type} (s : ChannelR T) : ChannelR T :=
  if s.count < s.capacity then
    match h : s.sendWaiters with
    | [] => s
    | v :: rest =>
      ChannelR.processSendWaiters
        { s with
          sendWaiters := rest
          buffer := s.buffer.set s.tail (some v)
          tail := (s.tail + 1) % s.capacity
          count := s.count + 1 }
  else s
termination_by s.sendWaiters.length
decreasing_by simp [h]

/-- Method `send`: error on a closed channel, else hand off to the oldest
waiting receiver, else store into the ring buffer when space remains, else
suspend. -/
def ChannelR.send {T : Type} (s : ChannelR T) (value : T) : SendOutcome × ChannelR T :=
  if s.closed then
    (.error "Channel: send on closed channel", s)
  else if s.receiveWaiters > 0 then
    (.delivered, { s with receiveWaiters := s.receiveWaiters - 1 })
  else if s.capacity > 0 ∧ s.count < s.capacity then
    (.buffered,
      { s with
        buffer := s.buffer.set s.tail (some value)
        tail := (s.tail + 1) % s.capacity
        count := s.count + 1 })
  else
    (.suspended, { s with sendWaiters := s.sendWaiters ++ [value] })

/-- Method `receive`: drain the ring buffer first, then a waiting sender,
then report closure, else suspend. -/
def ChannelR.receive {T : Type} (s : ChannelR T) : RcvOutcome T × ChannelR T :=
  if s.count > 0 then
    (.val (s.buffer.getD s.head none),
      ChannelR.processSendWaiters
        { s with
          buffer := s.buffer.set s.head none
          head := (s.head + 1) % s.capacity
          count := s.count - 1 })
  else
    match s.sendWaiters with
    | w :: rest => (.val (some w), { s with sendWaiters := rest })
    | [] =>
      if s.closed then
        (.closedSig, s)
      else
        (.suspended, { s with receiveWaiters := s.receiveWaiters + 1 })

/-- Method `tryReceive`: the non-suspending variant of `receive`; returns the
tuple `[undefined, false]` when no value is immediately available. -/
def ChannelR.tryReceive {T : Type} (s : ChannelR T) : RcvResult T × ChannelR T :=
  if s.count > 0 then
    ((s.buffer.getD s.head none, true),
      ChannelR.processSendWaiters
        { s with
          buffer := s.buffer.set s.head none
          head := (s.head + 1) % s.capacity
          count := s.count - 1 })
  else
    match s.sendWaiters with
    | w :: rest => ((some w, true), { s with sendWaiters := rest })
    | [] => ((none, false), s)

/-- Method `trySend`: the non-suspending variant of `send`; returns `false`
when the channel is closed or no immediate progress is possible. -/
def ChannelR.trySend {T : Type} (s : ChannelR T) (value : T) : Bool × ChannelR T :=
  if s.closed then
    (false, s)
  else if s.receiveWaiters > 0 then
    (true, { s with receiveWaiters := s.receiveWaiters - 1 })
  else if s.capacity > 0 ∧ s.count < s.capacity then
    (true,
      { s with
        buffer := s.buffer.set s.tail (some value)
        tail := (s.tail + 1) % s.capacity
        count := s.count + 1 })
  else
    (false, s)

/-- Method `close`: idempotent; sets the closed flag, drops queued senders
without resolving them, and resolves every queued receiver with
`[undefined, false]` (returned as the emitted resolution list). -/
def ChannelR.close {T : Type} (s : ChannelR T) : ChannelR T × List (RcvResult T) :=
  if s.closed then
    (s, [])
  else
    ({ s with closed := true, sendWaiters := [], receiveWaiters := 0 },
      List.replicate s.receiveWaiters (none, false))

/-- Getter `length`: the current number of buffered items. -/
def ChannelR.lengthGetter {T : Type} (s : ChannelR T) : Nat := s.count

/-- Channel operations, used to quantify over arbitrary call sequences. -/
inductive ChOp (T : Type) where
  | send (v : T)
  | receive
  | trySend (v : T)
  | tryReceive
  | close
  deriving DecidableEq, Repr

/-- State reached after one channel operation (resolutions discarded). -/
def ChannelR.step {T : Type} (s : ChannelR T) : ChOp T → ChannelR T
  | .send v => (s.send v).2
  | .receive => s.receive.2
  | .trySend v => (s.trySend v).2
  | .tryReceive => s.tryReceive.2
  | .close => s.close.1

/-- State reached after a sequence of channel operations. -/
def ChannelR.run {T : Type} (s : ChannelR T) (ops : List (ChOp T)) : ChannelR T :=
  ops.foldl ChannelR.step s

/-- Outcomes of `n` consecutive `receive` calls, with the final state. -/
def ChannelR.receiveN {T : Type} (s : ChannelR T) : Nat → List (RcvOutcome T) × ChannelR T
  | 0 => ([], s)
  | n + 1 =>
    let p := s.receive
    let q := ChannelR.receiveN p.2 n
    (p.1 :: q.1, q.2)

/-- Checks that every send in the list takes the immediate buffered branch
(a successful, non-suspending send into the ring buffer). -/
def ChannelR.sendsAllBuffered {T : Type} (s : ChannelR T) : List T → Bool
  | [] => true
  | v :: vs =>
    match s.send v with
    | (.buffered, s2) => ChannelR.sendsAllBuffered s2 vs
    | _ => false

/-- Structural well-formedness of the ring buffer: the buffer has exactly
`capacity` slots, `count` fits, `head` is in range, `tail` is `head + count`
modulo `capacity`, and an unbuffered channel stores nothing. -/
def ChannelR.preWf {T : Type} (s : ChannelR T) : Prop :=
  s.buffer.length = s.capacity ∧
  s.count ≤ s.capacity ∧
  (s.capacity = 0 → s.head = 0 ∧ s.tail = 0 ∧ s.count = 0) ∧
  (0 < s.capacity → s.head < s.capacity) ∧
  s.tail = (s.head + s.count) % s.capacity

/-- Queue consistency: senders stay queued only while the buffer is full,
receivers only while nothing is available, and a closed channel has no
queued waiters. -/
def ChannelR.wfq {T : Type} (s : ChannelR T) : Prop :=
  (s.count < s.capacity → s.sendWaiters = []) ∧
  (0 < s.receiveWaiters → s.count = 0 ∧ s.sendWaiters = []) ∧
  (s.closed = true → s.sendWaiters = [] ∧ s.receiveWaiters = 0)

/-- Full channel invariant. -/
def ChannelR.wf {T : Type} (s : ChannelR T) : Prop := s.preWf ∧ s.wfq

instance {T : Type} [DecidableEq T] (s : ChannelR T) : Decidable s.preWf := by
  unfold ChannelR.preWf; infer_instance

instance {T : Type} [DecidableEq T] (s : ChannelR T) : Decidable s.wfq := by
  unfold ChannelR.wfq; infer_instance

instance {T : Type} [DecidableEq T] (s : ChannelR T) : Decidable s.wf := by
  unfold ChannelR.wf; infer_instance

/-- Cancellation of a common offset under a shared modulus. -/
theorem mod_cancel_eq {cap head i j : Nat} (hi : i < cap) (hj : j < cap)
    (h : (head + i) % cap = (head + j) % cap) : i = j := by
  have h2 : i ≡ j [MOD cap] := Nat.ModEq.add_left_cancel' head h
  have h3 : i % cap = j % cap := h2
  rw [Nat.mod_eq_of_lt hi, Nat.mod_eq_of_lt hj] at h3
  exact h3

/-- A strictly later ring index never collides with `head`. -/
theorem mod_add_ne {cap head j : Nat} (hh : head < cap) (hj : 0 < j) (hjc : j < cap) :
    (head + j) % cap ≠ head := by
  intro h
  have h0 : (head + j) % cap = (head + 0) % cap := by
    rw [Nat.add_zero, Nat.mod_eq_of_lt hh]
    exact h
  have := mod_cancel_eq hjc (Nat.lt_of_lt_of_le hj (Nat.le_of_lt hjc)) h0
  omega

theorem getD_set_ne {α : Type} (l : List α) {i j : Nat} (a d : α) (h : i ≠ j) :
    (l.set i a).getD j d = l.getD j d := by
  simp [List.getD, List.getElem?_set_ne h]

theorem getD_set_self {α : Type} (l : List α) {i : Nat} (a d : α) (h : i < l.length) :
    (l.set i a).getD i d = a := by
  simp [List.getD, List.getElem?_set_self, h]

/-- Intermediate state produced by the buffer-pop branch of
`receive`/`tryReceive`, before `#processSendWaiters` runs. -/
def ChannelR.popState {T : Type} (s : ChannelR T) : ChannelR T :=
  { s with
    buffer := s.buffer.set s.head none
    head := (s.head + 1) % s.capacity
    count := s.count - 1 }

/-- State produced by writing one value at `tail` (the buffered branch of
`send`/`trySend` and each iteration of `#processSendWaiters`). -/
def ChannelR.pushState {T : Type} (s : ChannelR T) (v : T) : ChannelR T :=
  { s with
    buffer := s.buffer.set s.tail (some v)
    tail := (s.tail + 1) % s.capacity
    count := s.count + 1 }

theorem ChannelR.contentsO_length {T : Type} (s : ChannelR T) :
    s.contentsO.length = s.count := by
  simp [ChannelR.contentsO]

/-- Popping the head slot removes exactly the first logical element. -/
theorem ChannelR.pop_contents {T : Type} (s : ChannelR T) (hw : s.preWf) (hc : 0 < s.count) :
    s.contentsO = s.buffer.getD s.head none :: (s.popState).contentsO := by
  obtain ⟨hlen, hcount, hcz, hhead, htail⟩ := hw
  have hcap : 0 < s.capacity := Nat.lt_of_lt_of_le hc hcount
  have hh : s.head < s.capacity := hhead hcap
  obtain ⟨n, hn⟩ : ∃ n, s.count = n + 1 := ⟨s.count - 1, by omega⟩
  have hpop : (s.popState).contentsO
      = (List.range n).map
          (fun i => (s.buffer.set s.head none).getD
            (((s.head + 1) % s.capacity + i) % s.capacity) none) := by
    unfold ChannelR.contentsO ChannelR.popState
    rw [show ({ s with
          buffer := s.buffer.set s.head none
          head := (s.head + 1) % s.capacity
          count := s.count - 1 } : ChannelR T).count = n by simp [hn]]
  rw [hpop]
  unfold ChannelR.contentsO
  rw [hn, List.range_succ_eq_map, List.map_cons, List.map_map]
  congr 1
  · rw [Nat.add_zero, Nat.mod_eq_of_lt hh]
  · apply List.map_congr_left
    intro i hi
    have hi2 : i < n := List.mem_range.mp hi
    have hmod : ((s.head + 1) % s.capacity + i) % s.capacity
        = (s.head + (i + 1)) % s.capacity := by
      rw [Nat.mod_add_mod]
      congr 1
      omega
    have hne : (s.head + (i + 1)) % s.capacity ≠ s.head :=
      mod_add_ne hh (by omega) (by omega)
    rw [hmod, getD_set_ne _ _ _ (fun he => hne he.symm)]
    simp [Function.comp, Nat.succ_eq_add_one]

/-- The popped state keeps structural well-formedness. -/
theorem ChannelR.popState_preWf {T : Type} (s : ChannelR T) (hw : s.preWf) (hc : 0 < s.count) :
    (s.popState).preWf := by
  obtain ⟨hlen, hcount, hcz, hhead, htail⟩ := hw
  have hcap : 0 < s.capacity := Nat.lt_of_lt_of_le hc hcount
  refine ⟨?_, ?_, ?_, ?_, ?_⟩
  · show (s.buffer.set s.head none).length = s.capacity
    simp [hlen]
  · show s.count - 1 ≤ s.capacity
    omega
  · intro h0
    exact absurd (show s.capacity = 0 from h0) (by omega)
  · intro _
    exact Nat.mod_lt _ hcap
  · show s.tail = ((s.head + 1) % s.capacity + (s.count - 1)) % s.capacity
    rw [Nat.mod_add_mod, htail]
    congr 1
    omega

/-- Writing at `tail` appends exactly one logical element. -/
theorem ChannelR.push_contents {T : Type} (s : ChannelR T) (v : T) (hw : s.preWf)
    (hc : s.count < s.capacity) :
    (s.pushState v).contentsO = s.contentsO ++ [some v] := by
  obtain ⟨hlen, hcount, hcz, hhead, htail⟩ := hw
  have hcap : 0 < s.capacity := Nat.lt_of_le_of_lt (Nat.zero_le _) hc
  have htl : s.tail < s.capacity := by rw [htail]; exact Nat.mod_lt _ hcap
  have h1 : (s.pushState v).contentsO
      = (List.range (s.count + 1)).map
          (fun i => (s.buffer.set s.tail (some v)).getD ((s.head + i) % s.capacity) none) := rfl
  rw [h1, List.range_succ, List.map_append, List.map_cons, List.map_nil]
  congr 1
  · unfold ChannelR.contentsO
    apply List.map_congr_left
    intro i hi
    have hi2 : i < s.count := List.mem_range.mp hi
    apply getD_set_ne
    rw [htail]
    intro he
    have := mod_cancel_eq (by omega) (by omega) he
    omega
  · rw [← htail, getD_set_self _ _ _ (by rw [hlen]; exact htl)]

/-- The pushed state keeps structural well-formedness. -/
theorem ChannelR.pushState_preWf {T : Type} (s : ChannelR T) (v : T) (hw : s.preWf)
    (hc : s.count < s.capacity) :
    (s.pushState v).preWf := by
  obtain ⟨hlen, hcount, hcz, hhead, htail⟩ := hw
  have hcap : 0 < s.capacity := Nat.lt_of_le_of_lt (Nat.zero_le _) hc
  refine ⟨?_, ?_, ?_, ?_, ?_⟩
  · show (s.buffer.set s.tail (some v)).length = s.capacity
    simp [hlen]
  · show s.count + 1 ≤ s.capacity
    omega
  · intro h0
    exact absurd (show s.capacity = 0 from h0) (by omega)
  · intro hx
    exact hhead hx
  · show (s.tail + 1) % s.capacity = (s.head + (s.count + 1)) % s.capacity
    rw [htail, Nat.mod_add_mod]
    congr 1

/-- With no queued senders, `#processSendWaiters` is the identity. -/
theorem ChannelR.psw_nil {T : Type} (s : ChannelR T) (h : s.sendWaiters = []) :
    s.processSendWaiters = s := by
  rw [ChannelR.processSendWaiters]
  split
  · rw [h]
  · rfl

/-- With a full buffer, `#processSendWaiters` is the identity. -/
theorem ChannelR.psw_full {T : Type} (s : ChannelR T) (hc : ¬ s.count < s.capacity) :
    s.processSendWaiters = s := by
  rw [ChannelR.processSendWaiters]
  rw [if_neg hc]

/-- One unfolding of `#processSendWaiters` when it makes progress. -/
theorem ChannelR.psw_cons {T : Type} (s : ChannelR T) (v : T) (rest : List T)
    (hc : s.count < s.capacity) (h : s.sendWaiters = v :: rest) :
    s.processSendWaiters =
      ChannelR.processSendWaiters { s.pushState v with sendWaiters := rest } := by
  rw [ChannelR.processSendWaiters]
  rw [if_pos hc]
  split
  · rename_i heq
    rw [h] at heq
    cases heq
  · rename_i v2 rest2 heq
    rw [h] at heq
    cases heq
    rfl

/-- Fields `#processSendWaiters` never touches. -/
theorem ChannelR.psw_fields {T : Type} :
    ∀ (w : List T) (s : ChannelR T), s.sendWaiters = w →
      (s.processSendWaiters).capacity = s.capacity ∧
      (s.processSendWaiters).closed = s.closed ∧
      (s.processSendWaiters).receiveWaiters = s.receiveWaiters ∧
      (s.processSendWaiters).head = s.head := by
  intro w
  induction w with
  | nil =>
    intro s hsw
    rw [ChannelR.psw_nil s hsw]
    exact ⟨rfl, rfl, rfl, rfl⟩
  | cons v rest ih =>
    intro s hsw
    by_cases hc : s.count < s.capacity
    · rw [ChannelR.psw_cons s v rest hc hsw]
      exact ih { s.pushState v with sendWaiters := rest } rfl
    · rw [ChannelR.psw_full s hc]
      exact ⟨rfl, rfl, rfl, rfl⟩

/-- `#processSendWaiters` restores the sender-queue invariant and keeps the
structural invariant. -/
theorem ChannelR.psw_wf {T : Type} :
    ∀ (w : List T) (s : ChannelR T), s.sendWaiters = w → s.preWf →
      (s.processSendWaiters).preWf ∧
      ((s.processSendWaiters).count < (s.processSendWaiters).capacity →
        (s.processSendWaiters).sendWaiters = []) := by
  intro w
  induction w with
  | nil =>
    intro s hsw hpre
    rw [ChannelR.psw_nil s hsw]
    exact ⟨hpre, fun _ => hsw⟩
  | cons v rest ih =>
    intro s hsw hpre
    by_cases hc : s.count < s.capacity
    · rw [ChannelR.psw_cons s v rest hc hsw]
      have hpre2 : ({ s.pushState v with sendWaiters := rest } : ChannelR T).preWf :=
        ChannelR.pushState_preWf s v hpre hc
      exact ih { s.pushState v with sendWaiters := rest } rfl hpre2
    · rw [ChannelR.psw_full s hc]
      exact ⟨hpre, fun hlt => absurd hlt hc⟩

/-- `send` preserves the channel invariant (on the resulting state). -/
theorem ChannelR.send_wf {T : Type} (s : ChannelR T) (v : T) (h : s.wf) :
    ((s.send v).2).wf := by
  obtain ⟨hpre, hqs, hqr, hqc⟩ := h
  unfold ChannelR.send
  by_cases h1 : s.closed
  · simp only [if_pos h1]
    exact ⟨hpre, hqs, hqr, hqc⟩
  · simp only [if_neg h1]
    by_cases h2 : s.receiveWaiters > 0
    · simp only [if_pos h2]
      refine ⟨hpre, hqs, ?_, ?_⟩
      · intro hx
        exact hqr (by omega)
      · intro hx
        exact absurd hx h1
    · simp only [if_neg h2]
      by_cases h3 : s.capacity > 0 ∧ s.count < s.capacity
      · simp only [if_pos h3]
        refine ⟨ChannelR.pushState_preWf s v hpre h3.2, ?_, ?_, ?_⟩
        · intro _
          exact hqs h3.2
        · intro hx
          exact absurd (show 0 < s.receiveWaiters from hx) (by omega)
        · intro hx
          exact absurd hx h1
      · simp only [if_neg h3]
        refine ⟨hpre, ?_, ?_, ?_⟩
        · intro hx
          have hx2 : s.count < s.capacity := hx
          exact absurd ⟨by omega, hx2⟩ h3
        · intro hx
          exact absurd (show 0 < s.receiveWaiters from hx) (by omega)
        · intro hx
          exact absurd hx h1

/-- `receive` preserves the channel invariant. -/
theorem ChannelR.receive_wf {T : Type} (s : ChannelR T) (h : s.wf) :
    (s.receive.2).wf := by
  obtain ⟨hpre, hqs, hqr, hqc⟩ := h
  unfold ChannelR.receive
  by_cases h1 : s.count > 0
  · simp only [if_pos h1]
    show ((s.popState).processSendWaiters).wf
    have hpre2 : (s.popState).preWf := ChannelR.popState_preWf s hpre h1
    have hp := ChannelR.psw_wf (s.popState).sendWaiters (s.popState) rfl hpre2
    have hf := ChannelR.psw_fields (s.popState).sendWaiters (s.popState) rfl
    refine ⟨hp.1, hp.2, ?_, ?_⟩
    · intro hx
      rw [hf.2.2.1] at hx
      have : s.receiveWaiters > 0 := hx
      exact absurd (hqr this).1 (by omega)
    · intro hx
      rw [hf.2.1] at hx
      have hsw0 : (s.popState).sendWaiters = [] := (hqc hx).1
      rw [ChannelR.psw_nil _ hsw0]
      exact ⟨hsw0, (hqc hx).2⟩
  · simp only [if_neg h1]
    rcases hsw2 : s.sendWaiters with _ | ⟨w0, rest⟩
    · simp only [hsw2]
      by_cases h2 : s.closed
      · simp only [if_pos h2]
        exact ⟨hpre, hqs, hqr, hqc⟩
      · simp only [if_neg h2]
        refine ⟨hpre, fun _ => rfl, ?_, ?_⟩
        · intro _
          exact ⟨show s.count = 0 by omega, rfl⟩
        · intro hx
          exact absurd (show s.closed = true from hx) h2
    · simp only [hsw2]
      have hcap0 : s.capacity = 0 := by
        by_cases hc : s.count < s.capacity
        · rw [hqs hc] at hsw2
          cases hsw2
        · omega
      refine ⟨hpre, ?_, ?_, ?_⟩
      · intro hx
        exact absurd (show s.count < s.capacity from hx) (by omega)
      · intro hx
        have := (hqr hx).2
        rw [this] at hsw2
        cases hsw2
      · intro hx
        have := (hqc hx).1
        rw [this] at hsw2
        cases hsw2

/-- `trySend` preserves the channel invariant. -/
theorem ChannelR.trySend_wf {T : Type} (s : ChannelR T) (v : T) (h : s.wf) :
    ((s.trySend v).2).wf := by
  obtain ⟨hpre, hqs, hqr, hqc⟩ := h
  unfold ChannelR.trySend
  by_cases h1 : s.closed
  · simp only [if_pos h1]
    exact ⟨hpre, hqs, hqr, hqc⟩
  · simp only [if_neg h1]
    by_cases h2 : s.receiveWaiters > 0
    · simp only [if_pos h2]
      refine ⟨hpre, hqs, ?_, ?_⟩
      · intro hx
        exact hqr (by omega)
      · intro hx
        exact absurd hx h1
    · simp only [if_neg h2]
      by_cases h3 : s.capacity > 0 ∧ s.count < s.capacity
      · simp only [if_pos h3]
        refine ⟨ChannelR.pushState_preWf s v hpre h3.2, ?_, ?_, ?_⟩
        · intro _
          exact hqs h3.2
        · intro hx
          exact absurd (show 0 < s.receiveWaiters from hx) (by omega)
        · intro hx
          exact absurd hx h1
      · simp only [if_neg h3]
        exact ⟨hpre, hqs, hqr, hqc⟩

/-- `tryReceive` preserves the channel invariant. -/
theorem ChannelR.tryReceive_wf {T : Type} (s : ChannelR T) (h : s.wf) :
    (s.tryReceive.2).wf := by
  obtain ⟨hpre, hqs, hqr, hqc⟩ := h
  unfold ChannelR.tryReceive
  by_cases h1 : s.count > 0
  · simp only [if_pos h1]
    show ((s.popState).processSendWaiters).wf
    have hpre2 : (s.popState).preWf := ChannelR.popState_preWf s hpre h1
    have hp := ChannelR.psw_wf (s.popState).sendWaiters (s.popState) rfl hpre2
    have hf := ChannelR.psw_fields (s.popState).sendWaiters (s.popState) rfl
    refine ⟨hp.1, hp.2, ?_, ?_⟩
    · intro hx
      rw [hf.2.2.1] at hx
      have : s.receiveWaiters > 0 := hx
      exact absurd (hqr this).1 (by omega)
    · intro hx
      rw [hf.2.1] at hx
      have hsw0 : (s.popState).sendWaiters = [] := (hqc hx).1
      rw [ChannelR.psw_nil _ hsw0]
      exact ⟨hsw0, (hqc hx).2⟩
  · simp only [if_neg h1]
    rcases hsw2 : s.sendWaiters with _ | ⟨w0, rest⟩
    · simp only [hsw2]
      exact ⟨hpre, hqs, hqr, hqc⟩
    · simp only [hsw2]
      refine ⟨hpre, ?_, ?_, ?_⟩
      · intro hx
        rw [hqs hx] at hsw2
        cases hsw2
      · intro hx
        have := (hqr hx).2
        rw [this] at hsw2
        cases hsw2
      · intro hx
        have := (hqc hx).1
        rw [this] at hsw2
        cases hsw2

/-- `close` preserves the channel invariant. -/
theorem ChannelR.close_wf {T : Type} (s : ChannelR T) (h : s.wf) :
    ((s.close).1).wf := by
  obtain ⟨hpre, hqs, hqr, hqc⟩ := h
  unfold ChannelR.close
  by_cases h1 : s.closed
  · simp only [if_pos h1]
    exact ⟨hpre, hqs, hqr, hqc⟩
  · simp only [if_neg h1]
    refine ⟨hpre, fun _ => rfl, ?_, fun _ => ⟨rfl, rfl⟩⟩
    intro hx
    exact absurd (show (0 : Nat) < 0 from hx) (by omega)

/-- Every single operation preserves the invariant and the capacity. -/
theorem ChannelR.step_wf {T : Type} (s : ChannelR T) (op : ChOp T) (h : s.wf) :
    (s.step op).wf ∧ (s.step op).capacity = s.capacity := by
  have hcap : ∀ t : ChannelR T, t.wf → t.preWf := fun t ht => ht.1
  cases op with
  | send v =>
    refine ⟨ChannelR.send_wf s v h, ?_⟩
    unfold ChannelR.step ChannelR.send
    by_cases h1 : s.closed
    · simp only [if_pos h1]
    · simp only [if_neg h1]
      by_cases h2 : s.receiveWaiters > 0
      · simp only [if_pos h2]
      · simp only [if_neg h2]
        by_cases h3 : s.capacity > 0 ∧ s.count < s.capacity
        · simp only [if_pos h3]
        · simp only [if_neg h3]
  | receive =>
    refine ⟨ChannelR.receive_wf s h, ?_⟩
    unfold ChannelR.step ChannelR.receive
    by_cases h1 : s.count > 0
    · simp only [if_pos h1]
      show ((s.popState).processSendWaiters).capacity = s.capacity
      exact (ChannelR.psw_fields (s.popState).sendWaiters (s.popState) rfl).1
    · simp only [if_neg h1]
      rcases hsw2 : s.sendWaiters with _ | ⟨w0, rest⟩
      · simp only [hsw2]
        by_cases h2 : s.closed
        · simp only [if_pos h2]
        · simp only [if_neg h2]
      · simp only [hsw2]
  | trySend v =>
    refine ⟨ChannelR.trySend_wf s v h, ?_⟩
    unfold ChannelR.step ChannelR.trySend
    by_cases h1 : s.closed
    · simp only [if_pos h1]
    · simp only [if_neg h1]
      by_cases h2 : s.receiveWaiters > 0
      · simp only [if_pos h2]
      · simp only [if_neg h2]
        by_cases h3 : s.capacity > 0 ∧ s.count < s.capacity
        · simp only [if_pos h3]
        · simp only [if_neg h3]
  | tryReceive =>
    refine ⟨ChannelR.tryReceive_wf s h, ?_⟩
    unfold ChannelR.step ChannelR.tryReceive
    by_cases h1 : s.count > 0
    · simp only [if_pos h1]
      show ((s.popState).processSendWaiters).capacity = s.capacity
      exact (ChannelR.psw_fields (s.popState).sendWaiters (s.popState) rfl).1
    · simp only [if_neg h1]
      rcases hsw2 : s.sendWaiters with _ | ⟨w0, rest⟩
      · simp only [hsw2]
      · simp only [hsw2]
  | close =>
    refine ⟨ChannelR.close_wf s h, ?_⟩
    unfold ChannelR.step ChannelR.close
    by_cases h1 : s.closed
    · simp only [if_pos h1]
    · simp only [if_neg h1]

/-- Running any operation sequence preserves the invariant and capacity. -/
theorem ChannelR.run_wf {T : Type} :
    ∀ (ops : List (ChOp T)) (s : ChannelR T), s.wf →
      (s.run ops).wf ∧ (s.run ops).capacity = s.capacity := by
  intro ops
  induction ops with
  | nil =>
    intro s h
    exact ⟨h, rfl⟩
  | cons op rest ih =>
    intro s h
    have h1 := ChannelR.step_wf s op h
    have h2 := ih (s.step op) h1.1
    refine ⟨h2.1, ?_⟩
    rw [show s.run (op :: rest) = (s.step op).run rest from rfl, h2.2, h1.2]

/-- A fresh channel satisfies the invariant. -/
theorem mkChannelR_wf (T : Type) (capacity : Nat) : (mkChannelR T capacity).wf := by
  refine ⟨⟨by simp [mkChannelR], by simp [mkChannelR], ?_, ?_, ?_⟩, ?_, ?_, ?_⟩
  · intro _
    exact ⟨rfl, rfl, rfl⟩
  · intro hx
    exact hx
  · show (0 : Nat) = (0 + 0) % capacity
    simp
  · intro _
    rfl
  · intro hx
    exact absurd (show (0 : Nat) < 0 from hx) (by omega)
  · intro hx
    cases hx

/-- Equation for the buffer-pop branch of `receive`. -/
theorem ChannelR.receive_buf {T : Type} (s : ChannelR T) (h1 : 0 < s.count) :
    s.receive = (.val (s.buffer.getD s.head none), (s.popState).processSendWaiters) := by
  unfold ChannelR.receive ChannelR.popState
  rw [if_pos (show s.count > 0 from h1)]

/-- Equation for the closed-signal branch of `receive`. -/
theorem ChannelR.receive_closed {T : Type} (s : ChannelR T) (h1 : s.count = 0)
    (h2 : s.sendWaiters = []) (h3 : s.closed = true) :
    s.receive = (.closedSig, s) := by
  unfold ChannelR.receive
  rw [if_neg (by omega)]
  simp only [h2]
  rw [if_pos h3]

/-- Equation for the buffered branch of `send`. -/
theorem ChannelR.send_buf {T : Type} (s : ChannelR T) (v : T) (h1 : s.closed = false)
    (h2 : s.receiveWaiters = 0) (h3 : 0 < s.capacity) (h4 : s.count < s.capacity) :
    s.send v = (.buffered, s.pushState v) := by
  unfold ChannelR.send ChannelR.pushState
  rw [if_neg (by simp [h1]), if_neg (by omega), if_pos ⟨h3, h4⟩]

/-- Filling an open, waiter-free channel with values that fit in the buffer:
every send takes the non-suspending buffered branch, and the buffer collects
the values in FIFO order. -/
theorem ChannelR.sendFill {T : Type} :
    ∀ (vs : List T) (s : ChannelR T), s.wf → s.closed = false → s.receiveWaiters = 0 →
      s.sendWaiters = [] → s.count + vs.length ≤ s.capacity →
      ChannelR.sendsAllBuffered s vs = true ∧
      (s.run (vs.map ChOp.send)).wf ∧
      (s.run (vs.map ChOp.send)).contentsO = s.contentsO ++ vs.map some ∧
      (s.run (vs.map ChOp.send)).count = s.count + vs.length ∧
      (s.run (vs.map ChOp.send)).capacity = s.capacity ∧
      (s.run (vs.map ChOp.send)).closed = false ∧
      (s.run (vs.map ChOp.send)).receiveWaiters = 0 ∧
      (s.run (vs.map ChOp.send)).sendWaiters = [] := by
  intro vs
  induction vs with
  | nil =>
    intro s hwf hcl hrw hsw hfit
    refine ⟨rfl, hwf, by simp [ChannelR.run], by simp [ChannelR.run],
      rfl, hcl, hrw, hsw⟩
  | cons v vs ih =>
    intro s hwf hcl hrw hsw hfit
    have hcap : 0 < s.capacity := by
      have h5 : (v :: vs).length = vs.length + 1 := rfl
      omega
    have hlt : s.count < s.capacity := by
      have : vs.length + 1 = (v :: vs).length := rfl
      omega
    have hsend := ChannelR.send_buf s v hcl hrw hcap hlt
    have hwf2 : (s.pushState v).wf := by
      have := ChannelR.send_wf s v hwf
      rw [hsend] at this
      exact this
    have hcl2 : (s.pushState v).closed = false := hcl
    have hrw2 : (s.pushState v).receiveWaiters = 0 := hrw
    have hsw2 : (s.pushState v).sendWaiters = [] := hsw
    have hfit2 : (s.pushState v).count + vs.length ≤ (s.pushState v).capacity := by
      show s.count + 1 + vs.length ≤ s.capacity
      have : (v :: vs).length = vs.length + 1 := rfl
      omega
    have hrun : s.run ((v :: vs).map ChOp.send) = (s.pushState v).run (vs.map ChOp.send) := by
      show (((s.send v).2).run (vs.map ChOp.send)) = _
      rw [hsend]
    have hall : ChannelR.sendsAllBuffered s (v :: vs)
        = ChannelR.sendsAllBuffered (s.pushState v) vs := by
      show (match s.send v with
        | (SendOutcome.buffered, s2) => ChannelR.sendsAllBuffered s2 vs
        | _ => false) = ChannelR.sendsAllBuffered (s.pushState v) vs
      rw [hsend]
    obtain ⟨ih1, ih2, ih3, ih4, ih5, ih6, ih7, ih8⟩ :=
      ih (s.pushState v) hwf2 hcl2 hrw2 hsw2 hfit2
    refine ⟨by rw [hall]; exact ih1, by rw [hrun]; exact ih2, ?_, ?_, ?_, ?_, ?_, ?_⟩
    · rw [hrun, ih3, ChannelR.push_contents s v hwf.1 hlt]
      simp
    · rw [hrun, ih4]
      show s.count + 1 + vs.length = s.count + (v :: vs).length
      have : (v :: vs).length = vs.length + 1 := rfl
      omega
    · rw [hrun, ih5]
      rfl
    · rw [hrun]
      exact ih6
    · rw [hrun]
      exact ih7
    · rw [hrun]
      exact ih8

/-- C2.  `send` on a closed channel raises exactly the
"send on closed channel" error and leaves the whole channel state
(buffer, indices, count, waiter queues, closed flag) unchanged. -/
theorem claim_c2_send_on_closed (s : ChannelR Nat) (v : Nat) (h : s.closed = true) :
    s.send v = (.error "Channel: send on closed channel", s) := by
  unfold ChannelR.send
  rw [if_pos h]

/-- Witness for C2 at a concrete closed channel. -/
theorem claim_c2_send_on_closed_witness :
    (ChannelR.mk ([some 7] : List (Option Nat)) 1 0 1 1 true [] 0).closed = true ∧
      (ChannelR.mk ([some 7] : List (Option Nat)) 1 0 1 1 true [] 0).send 3
        = (.error "Channel: send on closed channel",
            ChannelR.mk ([some 7] : List (Option Nat)) 1 0 1 1 true [] 0) :=
  ⟨rfl, claim_c2_send_on_closed (ChannelR.mk [some 7] 1 0 1 1 true [] 0) 3 rfl⟩

/-- C3.  After any completed operation sequence on a buffered channel of
capacity `C > 0`, if the buffer is not full then no sender is queued. -/
theorem claim_c3_sendWaiters_only_when_full (C : Nat) (ops : List (ChOp Nat))
    (hC : 0 < C) (hlt : ((mkChannelR Nat C).run ops).count < C) :
    ((mkChannelR Nat C).run ops).sendWaiters = [] := by
  have h := ChannelR.run_wf ops (mkChannelR Nat C) (mkChannelR_wf Nat C)
  have hcap : ((mkChannelR Nat C).run ops).capacity = C := h.2
  exact h.1.2.1 (by omega)

/-- Witness for C3: a capacity-2 channel after one send has a free slot and
an empty sender queue. -/
theorem claim_c3_sendWaiters_only_when_full_witness :
    (0 < 2 ∧ ((mkChannelR Nat 2).run [ChOp.send 5]).count < 2) ∧
      ((mkChannelR Nat 2).run [ChOp.send 5]).sendWaiters = [] :=
  ⟨⟨by decide, by decide⟩,
    claim_c3_sendWaiters_only_when_full 2 [ChOp.send 5] (by decide) (by decide)⟩

/-- Equation for the failing branch of `trySend` on a full buffer. -/
theorem ChannelR.trySend_full {T : Type} (s : ChannelR T) (v : T) (h1 : s.closed = false)
    (h2 : s.receiveWaiters = 0) (h3 : ¬ s.count < s.capacity) :
    s.trySend v = (false, s) := by
  unfold ChannelR.trySend
  rw [if_neg (by simp [h1]), if_neg (by omega), if_neg (by omega)]

/-- C4.  Channel occupancy bounds: `count` never exceeds the capacity under
any operation sequence; `C` non-suspending sends fill a fresh capacity-`C`
channel, after which a further `trySend` fails and `length` reads `C`; and a
capacity-0 channel stores nothing under any operation sequence. -/
theorem claim_c4_capacity_bound (C : Nat) (ops : List (ChOp Nat)) (vs : List Nat) (v : Nat)
    (hC : 0 < C) (hlen : vs.length = C) :
    ((mkChannelR Nat C).run ops).count ≤ C ∧
      ChannelR.sendsAllBuffered (mkChannelR Nat C) vs = true ∧
      (((mkChannelR Nat C).run (vs.map ChOp.send)).trySend v).1 = false ∧
      ((mkChannelR Nat C).run (vs.map ChOp.send)).lengthGetter = C ∧
      ((mkChannelR Nat 0).run ops).count = 0 := by
  have hbound := ChannelR.run_wf ops (mkChannelR Nat C) (mkChannelR_wf Nat C)
  have hfill := ChannelR.sendFill vs (mkChannelR Nat C) (mkChannelR_wf Nat C) rfl rfl rfl
    (by show 0 + vs.length ≤ C; omega)
  obtain ⟨hall, hwfF, hcontF, hcountF, hcapF, hclF, hrwF, hswF⟩ := hfill
  have hzero := ChannelR.run_wf ops (mkChannelR Nat 0) (mkChannelR_wf Nat 0)
  have hm1 : (mkChannelR Nat C).count = 0 := rfl
  have hm2 : (mkChannelR Nat C).capacity = C := rfl
  refine ⟨?_, hall, ?_, ?_, ?_⟩
  · have h1 := hbound.1.1.2.1
    have h2 := hbound.2
    omega
  · rw [ChannelR.trySend_full _ v hclF hrwF (by omega)]
  · show ((mkChannelR Nat C).run (vs.map ChOp.send)).count = C
    omega
  · exact (hzero.1.1.2.2.1 hzero.2).2.2

/-- Witness for C4 at capacity 2 with a concrete fill and overflow attempt. -/
theorem claim_c4_capacity_bound_witness :
    ((0 : Nat) < 2 ∧ ([4, 5] : List Nat).length = 2) ∧
      (((mkChannelR Nat 2).run [ChOp.send 1, ChOp.receive]).count ≤ 2 ∧
        ChannelR.sendsAllBuffered (mkChannelR Nat 2) [4, 5] = true ∧
        (((mkChannelR Nat 2).run ([4, 5].map ChOp.send)).trySend 6).1 = false ∧
        ((mkChannelR Nat 2).run ([4, 5].map ChOp.send)).lengthGetter = 2 ∧
        ((mkChannelR Nat 0).run [ChOp.send 1, ChOp.receive]).count = 0) :=
  ⟨⟨by decide, by decide⟩,
    claim_c4_capacity_bound 2 [ChOp.send 1, ChOp.receive] [4, 5] 6 (by decide) (by decide)⟩

/-- On a closed, drained channel every `receive` resolves with the closed
signal and leaves the state unchanged. -/
theorem ChannelR.drain_zero {T : Type} :
    ∀ (k : Nat) (s : ChannelR T), s.count = 0 → s.sendWaiters = [] → s.closed = true →
      (s.receiveN k).1 = List.replicate k RcvOutcome.closedSig ∧ (s.receiveN k).2 = s := by
  intro k
  induction k with
  | zero =>
    intro s _ _ _
    exact ⟨rfl, rfl⟩
  | succ k ih =>
    intro s hcount hsw hcl
    have hrec := ChannelR.receive_closed s hcount hsw hcl
    obtain ⟨ih1, ih2⟩ := ih s hcount hsw hcl
    constructor
    · show s.receive.1 :: ((s.receive.2).receiveN k).1 = _
      rw [hrec]
      rw [List.replicate_succ]
      exact congrArg _ ih1
    · show ((s.receive.2).receiveN k).2 = s
      rw [hrec]
      exact ih2

/-- Drain after close: a closed channel with `n` buffered values answers the
next `n` receives with those values in FIFO order and every later receive
with the closed signal. -/
theorem ChannelR.drain {T : Type} :
    ∀ (n k : Nat) (s : ChannelR T), s.count = n → s.wf → s.closed = true →
      (s.receiveN (n + k)).1
        = s.contentsO.map RcvOutcome.val ++ List.replicate k RcvOutcome.closedSig := by
  intro n
  induction n with
  | zero =>
    intro k s hcount hwf hcl
    have hsw : s.sendWaiters = [] := (hwf.2.2.2 hcl).1
    have hcont : s.contentsO = [] := by
      unfold ChannelR.contentsO
      rw [hcount]
      rfl
    rw [hcont, Nat.zero_add]
    exact (ChannelR.drain_zero k s hcount hsw hcl).1.trans (by simp)
  | succ n ih =>
    intro k s hcount hwf hcl
    have hsw : s.sendWaiters = [] := (hwf.2.2.2 hcl).1
    have hc0 : 0 < s.count := by omega
    have hrec : s.receive = (.val (s.buffer.getD s.head none), s.popState) := by
      rw [ChannelR.receive_buf s hc0,
        ChannelR.psw_nil (s.popState) (show (s.popState).sendWaiters = [] from hsw)]
    have hpopwf : (s.popState).wf := by
      have := ChannelR.receive_wf s hwf
      rw [hrec] at this
      exact this
    have hpopcount : (s.popState).count = n := by
      show s.count - 1 = n
      omega
    have hpopcl : (s.popState).closed = true := hcl
    have harith : n + 1 + k = (n + k) + 1 := by omega
    rw [harith]
    show s.receive.1 :: ((s.receive.2).receiveN (n + k)).1 = _
    rw [hrec]
    show RcvOutcome.val (s.buffer.getD s.head none) :: ((s.popState).receiveN (n + k)).1 = _
    rw [ih k (s.popState) hpopcount hpopwf hpopcl,
      ChannelR.pop_contents s hwf.1 hc0]
    rfl

/-- C1.  A buffered channel filled with `N` values and then closed: the next
`N` receives resolve with the values in FIFO send order, and every receive
after that (the `N+1`-th and all later ones) resolves with
`(undefined, false)`. -/
theorem claim_c1_close_drain (C : Nat) (vs : List Nat) (k : Nat)
    (hC : 0 < C) (hlen : vs.length ≤ C) :
    (((((mkChannelR Nat C).run (vs.map ChOp.send)).close).1).receiveN (vs.length + k)).1
      = vs.map (fun v => RcvOutcome.val (some v))
          ++ List.replicate k RcvOutcome.closedSig := by
  have hfill := ChannelR.sendFill vs (mkChannelR Nat C) (mkChannelR_wf Nat C) rfl rfl rfl
    (by show 0 + vs.length ≤ C; omega)
  obtain ⟨hall, hwfF, hcontF, hcountF, hcapF, hclF, hrwF, hswF⟩ := hfill
  set s0 := (mkChannelR Nat C).run (vs.map ChOp.send) with hs0
  have hclose : (s0.close).1
      = { s0 with closed := true, sendWaiters := [], receiveWaiters := 0 } := by
    unfold ChannelR.close
    rw [if_neg (by simp [hclF])]
  set s1 : ChannelR Nat := { s0 with closed := true, sendWaiters := [], receiveWaiters := 0 }
    with hs1
  have hcont1 : s1.contentsO = s0.contentsO := rfl
  have hcount1 : s1.count = vs.length := by
    show s0.count = vs.length
    rw [hcountF, show (mkChannelR Nat C).count = 0 from rfl, Nat.zero_add]
  have hwf1 : s1.wf := by
    refine ⟨?_, fun _ => rfl, ?_, fun _ => ⟨rfl, rfl⟩⟩
    · exact hwfF.1
    · intro hx
      exact absurd (show (0 : Nat) < 0 from hx) (by omega)
  have hmkcont : (mkChannelR Nat C).contentsO = [] := rfl
  rw [hclose]
  rw [ChannelR.drain vs.length k s1 hcount1 hwf1 rfl]
  rw [hcont1, hcontF, hmkcont, List.nil_append, List.map_map]
  rfl

/-- Witness for C1: capacity 3, two buffered values, closed, then four
receives. -/
theorem claim_c1_close_drain_witness :
    ((0 : Nat) < 3 ∧ ([8, 9] : List Nat).length ≤ 3) ∧
      (((((mkChannelR Nat 3).run ([8, 9].map ChOp.send)).close).1).receiveN
          (([8, 9] : List Nat).length + 2)).1
        = [8, 9].map (fun v => RcvOutcome.val (some v))
            ++ List.replicate 2 RcvOutcome.closedSig :=
  ⟨⟨by decide, by decide⟩, claim_c1_close_drain 3 [8, 9] 2 (by decide) (by decide)⟩

/-- Outcome of `ChannelU.receive` (the underscore-private channel's receive
resolves with a bare value, throws on a closed drained channel, or
suspends). -/
inductive RcvOutcomeU (T : Type) where
  | val (v : T)
  | error (msg : String)
  | suspended
  deriving DecidableEq, Repr

/-- State of the array-buffer channel class (source file with `_`-private
fields): `_buffer` is a plain array used as a FIFO queue via push/shift. -/
structure ChannelU (T : Type) where
  buffer : List T
  capacity : Nat
  closed : Bool
  sendWaiters : List T
  receiveWaiters : Nat
  deriving DecidableEq, Repr

/-- Constructor of the array-buffer channel. -/
def mkChannelU (T : Type) (capacity : Nat) : ChannelU T :=
  { buffer := [], capacity := capacity, closed := false, sendWaiters := [], receiveWaiters := 0 }

/-- Private helper `_processSendWaiters` of the array-buffer channel. -/
def ChannelU.processSendWaiters {T : Type} (s : ChannelU T) : ChannelU T :=
  if s.buffer.length < s.capacity then
    match h : s.sendWaiters with
    | [] => s
    | v :: rest =>
      ChannelU.processSendWaiters { s with sendWaiters := rest, buffer := s.buffer ++ [v] }
  else s
termination_by s.sendWaiters.length
decreasing_by simp [h]

/-- Method `send` of the array-buffer channel: identical branch structure to
the ring-buffer variant, with `_buffer.push`. -/
def ChannelU.send {T : Type} (s : ChannelU T) (value : T) : SendOutcome × ChannelU T :=
  if s.closed then
    (.error "Channel: send on closed channel", s)
  else if s.receiveWaiters > 0 then
    (.delivered, { s with receiveWaiters := s.receiveWaiters - 1 })
  else if s.capacity > 0 ∧ s.buffer.length < s.capacity then
    (.buffered, { s with buffer := s.buffer ++ [value] })
  else
    (.suspended, { s with sendWaiters := s.sendWaiters ++ [value] })

/-- Method `receive` of the array-buffer channel: drains `_buffer` first,
then a waiting sender, and THROWS "receive from closed channel" on a closed
drained channel (instead of resolving with a closed signal). -/
def ChannelU.receive {T : Type} (s : ChannelU T) : RcvOutcomeU T × ChannelU T :=
  match s.buffer with
  | v :: rest => (.val v, ChannelU.processSendWaiters { s with buffer := rest })
  | [] =>
    match s.sendWaiters with
    | w :: wrest => (.val w, { s with sendWaiters := wrest })
    | [] =>
      if s.closed then
        (.error "Channel: receive from closed channel", s)
      else
        (.suspended, { s with receiveWaiters := s.receiveWaiters + 1 })

/-- Method `close` of the array-buffer channel: sets the flag and drops
queued senders, but — unlike the ring-buffer variant — does NOT resolve
queued receivers; the emitted resolution list is always empty. -/
def ChannelU.close {T : Type} (s : ChannelU T) : ChannelU T × List T :=
  if s.closed then
    (s, [])
  else
    ({ s with closed := true, sendWaiters := [] }, [])

/-- Correspondence between an array-buffer channel state and a ring-buffer
channel state: same capacity, closed flag and waiter queues, and the ring
buffer's logical FIFO contents are exactly the array buffer's elements. -/
def ChannelRelPre {T : Type} (u : ChannelU T) (r : ChannelR T) : Prop :=
  u.capacity = r.capacity ∧ u.closed = r.closed ∧ u.sendWaiters = r.sendWaiters ∧
  u.receiveWaiters = r.receiveWaiters ∧ r.contentsO = u.buffer.map some ∧ r.preWf

/-- Full correspondence: structural correspondence plus the ring-buffer
channel's queue invariant. -/
def ChannelRel {T : Type} (u : ChannelU T) (r : ChannelR T) : Prop :=
  ChannelRelPre u r ∧ r.wfq

instance {T : Type} [DecidableEq T] (u : ChannelU T) (r : ChannelR T) :
    Decidable (ChannelRelPre u r) := by
  unfold ChannelRelPre; infer_instance

instance {T : Type} [DecidableEq T] (u : ChannelU T) (r : ChannelR T) :
    Decidable (ChannelRel u r) := by
  unfold ChannelRel; infer_instance

/-- With no queued senders, the array-buffer `_processSendWaiters` is the
identity. -/
theorem ChannelU.pswU_nil {T : Type} (s : ChannelU T) (h : s.sendWaiters = []) :
    s.processSendWaiters = s := by
  rw [ChannelU.processSendWaiters]
  split
  · rw [h]
  · rfl

/-- With a full buffer, the array-buffer `_processSendWaiters` is the
identity. -/
theorem ChannelU.pswU_full {T : Type} (s : ChannelU T) (hc : ¬ s.buffer.length < s.capacity) :
    s.processSendWaiters = s := by
  rw [ChannelU.processSendWaiters]
  rw [if_neg hc]

/-- One unfolding of the array-buffer `_processSendWaiters`. -/
theorem ChannelU.pswU_cons {T : Type} (s : ChannelU T) (v : T) (rest : List T)
    (hc : s.buffer.length < s.capacity) (h : s.sendWaiters = v :: rest) :
    s.processSendWaiters =
      ChannelU.processSendWaiters { s with sendWaiters := rest, buffer := s.buffer ++ [v] } := by
  rw [ChannelU.processSendWaiters]
  rw [if_pos hc]
  split
  · rename_i heq
    rw [h] at heq
    cases heq
  · rename_i v2 rest2 heq
    rw [h] at heq
    cases heq
    rfl

/-- The two `_processSendWaiters`/`#processSendWaiters` helpers preserve the
correspondence: both move the same queued senders into their buffers. -/
theorem psw_sim {T : Type} :
    ∀ (w : List T) (u : ChannelU T) (r : ChannelR T), u.sendWaiters = w →
      ChannelRelPre u r → ChannelRelPre u.processSendWaiters r.processSendWaiters := by
  intro w
  induction w with
  | nil =>
    intro u r hw hrel
    rw [ChannelU.pswU_nil u hw, ChannelR.psw_nil r (hrel.2.2.1 ▸ hw)]
    exact hrel
  | cons v rest ih =>
    intro u r hw hrel
    obtain ⟨hcap, hcl, hsw, hrw, hcont, hpre⟩ := hrel
    have hlen : u.buffer.length = r.count := by
      have h1 : r.contentsO.length = r.count := ChannelR.contentsO_length r
      rw [hcont] at h1
      simpa using h1
    by_cases hc : r.count < r.capacity
    · have hcU : u.buffer.length < u.capacity := by rw [hlen, hcap]; exact hc
      rw [ChannelU.pswU_cons u v rest hcU hw, ChannelR.psw_cons r v rest hc (hsw ▸ hw)]
      apply ih
      · rfl
      · refine ⟨hcap, hcl, rfl, hrw, ?_, ?_⟩
        · show (r.pushState v).contentsO = (u.buffer ++ [v]).map some
          rw [ChannelR.push_contents r v hpre hc, hcont, List.map_append]
          rfl
        · show (r.pushState v).preWf
          exact ChannelR.pushState_preWf r v hpre hc
    · have hcU : ¬ u.buffer.length < u.capacity := by rw [hlen, hcap]; exact hc
      rw [ChannelU.pswU_full u hcU, ChannelR.psw_full r hc]
      exact ⟨hcap, hcl, hsw, hrw, hcont, hpre⟩

/-- C6 counterexample.  The two channel variants are NOT behaviorally
equivalent: after `close()` on a fresh channel, `receive()` raises
"receive from closed channel" in the underscore-private variant but resolves
with `(undefined, false)` in the hash-private variant; and `close()` on a
channel with one queued receiver resolves that receiver with
`(undefined, false)` in the hash-private variant but leaves it pending in
the underscore-private variant. -/
theorem claim_c6_counterexample :
    (((mkChannelU Nat 0).close).1).receive
        = (RcvOutcomeU.error "Channel: receive from closed channel", ((mkChannelU Nat 0).close).1) ∧
      (((mkChannelR Nat 0).close).1).receive
        = (RcvOutcome.closedSig, ((mkChannelR Nat 0).close).1) ∧
      (∀ v : Nat, ((((mkChannelU Nat 0).close).1).receive).1 ≠ RcvOutcomeU.val v) ∧
      ((ChannelU.mk ([] : List Nat) 0 false [] 1).close).2 = [] ∧
      (((ChannelU.mk ([] : List Nat) 0 false [] 1).close).1).receiveWaiters = 1 ∧
      ((ChannelR.mk ([] : List (Option Nat)) 0 0 0 0 false [] 1).close).2
        = [((none : Option Nat), false)] ∧
      (((ChannelR.mk ([] : List (Option Nat)) 0 0 0 0 false [] 1).close).1).receiveWaiters = 0 := by
  refine ⟨rfl, rfl, ?_, rfl, rfl, rfl, rfl⟩
  intro v h
  exact RcvOutcomeU.noConfusion h

/-- C6 amended.  Under the buffer correspondence the two variants agree on
`receive` whenever a buffered value is available (same value, related next
states), but they diverge exactly as the counterexample shows: on a closed
drained channel the underscore variant's `receive` raises
"receive from closed channel" while the hash variant resolves with the
closed signal, and `close` resolves all queued receivers with
`(undefined, false)` in the hash variant while the underscore variant
resolves none of them. -/
theorem claim_c6_amended (u : ChannelU Nat) (r : ChannelR Nat) (hrel : ChannelRel u r) :
    (∀ (v : Nat) (rest : List Nat), u.buffer = v :: rest →
        u.receive.1 = RcvOutcomeU.val v ∧ r.receive.1 = RcvOutcome.val (some v) ∧
          ChannelRel u.receive.2 r.receive.2) ∧
      (u.buffer = [] → u.sendWaiters = [] → u.closed = true →
        u.receive = (RcvOutcomeU.error "Channel: receive from closed channel", u) ∧
          r.receive = (RcvOutcome.closedSig, r)) ∧
      ((u.close).2 = [] ∧ ((u.close).1).receiveWaiters = u.receiveWaiters ∧
        (r.close).2 = List.replicate r.receiveWaiters ((none : Option Nat), false) ∧
        ((r.close).1).receiveWaiters = 0) := by
  obtain ⟨⟨hcap, hcl, hsw, hrw, hcont, hpre⟩, hwfq⟩ := hrel
  refine ⟨?_, ?_, ?_⟩
  · intro v rest hbuf
    have hcont2 : r.contentsO = some v :: rest.map some := by
      rw [hcont, hbuf]
      rfl
    have hcount : r.count = rest.length + 1 := by
      have h1 : r.contentsO.length = r.count := ChannelR.contentsO_length r
      rw [hcont2] at h1
      simpa using h1.symm
    have hc0 : 0 < r.count := by omega
    have hpc := ChannelR.pop_contents r hpre hc0
    have hchain : some v :: rest.map some
        = r.buffer.getD r.head none :: (r.popState).contentsO := hcont2.symm.trans hpc
    have hhd : r.buffer.getD r.head none = some v := (List.cons.injEq _ _ _ _ ▸ hchain).1.symm
    have htl : (r.popState).contentsO = rest.map some :=
      ((List.cons.injEq _ _ _ _ ▸ hchain).2).symm
    have hrecR := ChannelR.receive_buf r hc0
    have hrecU : u.receive
        = (RcvOutcomeU.val v, ChannelU.processSendWaiters { u with buffer := rest }) := by
      unfold ChannelU.receive
      rw [hbuf]
    have hrelpost : ChannelRelPre
        (ChannelU.processSendWaiters { u with buffer := rest })
        ((r.popState).processSendWaiters) := by
      apply psw_sim u.sendWaiters
      · rfl
      · exact ⟨hcap, hcl, hsw, hrw, htl, ChannelR.popState_preWf r hpre hc0⟩
    have hwfpost : (r.receive.2).wf := ChannelR.receive_wf r ⟨hpre, hwfq⟩
    refine ⟨by rw [hrecU], by rw [hrecR, hhd], ?_⟩
    rw [hrecU, hrecR]
    refine ⟨hrelpost, ?_⟩
    rw [hrecR] at hwfpost
    exact hwfpost.2
  · intro hbuf hswU hclU
    have hclR : r.closed = true := by rw [← hcl]; exact hclU
    have hswR : r.sendWaiters = [] := by rw [← hsw]; exact hswU
    have hcount : r.count = 0 := by
      have h1 : r.contentsO.length = r.count := ChannelR.contentsO_length r
      rw [hcont, hbuf] at h1
      simpa using h1.symm
    constructor
    · unfold ChannelU.receive
      rw [hbuf, hswU, if_pos hclU]
    · exact ChannelR.receive_closed r hcount hswR hclR
  · by_cases hc : r.closed = true
    · have hcU : u.closed = true := by rw [hcl]; exact hc
      have hrw0 : r.receiveWaiters = 0 := (hwfq.2.2 hc).2
      have h1 : u.close = (u, []) := by
        unfold ChannelU.close
        rw [if_pos hcU]
      have h2 : r.close = (r, []) := by
        unfold ChannelR.close
        rw [if_pos hc]
      rw [h1, h2, hrw0]
      exact ⟨rfl, rfl, rfl, rfl⟩
    · have hcU : ¬ u.closed = true := by rw [hcl]; exact hc
      have h1 : u.close = ({ u with closed := true, sendWaiters := [] }, []) := by
        unfold ChannelU.close
        rw [if_neg hcU]
      have h2 : r.close
          = ({ r with closed := true, sendWaiters := [], receiveWaiters := 0 },
              List.replicate r.receiveWaiters (none, false)) := by
        unfold ChannelR.close
        rw [if_neg hc]
      rw [h1, h2]
      exact ⟨rfl, rfl, rfl, rfl⟩

/-- Witness for the amended C6 at a concrete related pair holding one
value. -/
theorem claim_c6_amended_witness :
    ChannelRel (ChannelU.mk [5] 1 false [] 0) (ChannelR.mk [some 5] 1 0 0 1 false [] 0) ∧
      ((ChannelU.mk [5] 1 false [] 0).receive.1 = RcvOutcomeU.val 5 ∧
        (ChannelR.mk [some 5] 1 0 0 1 false [] 0).receive.1 = RcvOutcome.val (some 5)) := by
  refine ⟨by decide, ?_⟩
  have h := (claim_c6_amended (ChannelU.mk [5] 1 false [] 0)
    (ChannelR.mk [some 5] 1 0 0 1 false [] 0) (by decide)).1 5 [] rfl
  exact ⟨h.1, h.2.1⟩

/-- Modelled from the spec: the select implementation (the channel module's
select/multiplexing layer) is missing from the source tree — only its tests
and the README reference it.  A select case is a receive attempt on a
channel, a send attempt of a value on a channel, or a default fallback;
channels are referenced by index into a channel list. -/
inductive SelectCase (T : Type) where
  | recv (ch : Nat)
  | send (ch : Nat) (v : T)
  | default_
  deriving DecidableEq, Repr

/-- Modelled from the spec: result of a select call — the winning case index
with its payload, a marker for the blocking pass, or the fatal
empty-case-list usage error. -/
inductive SelectResult (T : Type) where
  | recvCase (idx : Nat) (v : Option T) (ok : Bool)
  | sendCase (idx : Nat)
  | defaultCase (idx : Nat)
  | blocked
  | emptyErr
  deriving DecidableEq, Repr

/-- Modelled from the spec: the immediate pass iterates cases in order,
calling the channel's non-blocking try-receive / try-send; the first case
that succeeds immediately wins; default cases never fire in this pass. -/
def selectImmediate {T : Type} (chans : List (ChannelR T)) :
    List (SelectCase T) → Nat → Option (SelectResult T × List (ChannelR T))
  | [], _ => none
  | c :: rest, idx =>
    match c with
    | .default_ => selectImmediate chans rest (idx + 1)
    | .recv i =>
      let p := (chans.getD i (mkChannelR T 0)).tryReceive
      if (p.1).2 then some (.recvCase idx (p.1).1 true, chans.set i p.2)
      else selectImmediate chans rest (idx + 1)
    | .send i v =>
      let p := (chans.getD i (mkChannelR T 0)).trySend v
      if p.1 then some (.sendCase idx, chans.set i p.2)
      else selectImmediate chans rest (idx + 1)

/-- Modelled from the spec: index of the first default case, if any. -/
def findDefault {T : Type} : List (SelectCase T) → Nat → Option Nat
  | [], _ => none
  | .default_ :: _, idx => some idx
  | _ :: rest, idx => findDefault rest (idx + 1)

/-- Modelled from the spec: two-phase select — an empty case list is a fatal
usage error; otherwise run the immediate pass, then the default pass, and
finally fall through to the blocking pass. -/
def select {T : Type} (chans : List (ChannelR T)) (cases : List (SelectCase T)) :
    SelectResult T × List (ChannelR T) :=
  match cases with
  | [] => (.emptyErr, chans)
  | _ :: _ =>
    match selectImmediate chans cases 0 with
    | some res => res
    | none =>
      match findDefault cases 0 with
      | some i => (.defaultCase i, chans)
      | none => (.blocked, chans)

/-- Whether a case is immediately satisfiable: its non-blocking try
operation succeeds; a default case is never "satisfiable" in the immediate
pass. -/
def immSat {T : Type} (chans : List (ChannelR T)) : SelectCase T → Bool
  | .default_ => false
  | .recv i => (((chans.getD i (mkChannelR T 0)).tryReceive).1).2
  | .send i v => ((chans.getD i (mkChannelR T 0)).trySend v).1

/-- The select result produced when case `c` at position `idx` wins the
immediate pass. -/
def expectedWin {T : Type} (chans : List (ChannelR T)) (idx : Nat) :
    SelectCase T → SelectResult T
  | .recv i => .recvCase idx (((chans.getD i (mkChannelR T 0)).tryReceive).1).1 true
  | .send _ _ => .sendCase idx
  | .default_ => .defaultCase idx

/-- Unfolding equations for the immediate pass. -/
theorem selImm_recv {T : Type} (chans : List (ChannelR T)) (ci idx : Nat)
    (rest : List (SelectCase T)) :
    selectImmediate chans (SelectCase.recv ci :: rest) idx
      = if (((chans.getD ci (mkChannelR T 0)).tryReceive).1).2
        then some (.recvCase idx (((chans.getD ci (mkChannelR T 0)).tryReceive).1).1 true,
          chans.set ci ((chans.getD ci (mkChannelR T 0)).tryReceive).2)
        else selectImmediate chans rest (idx + 1) := rfl

theorem selImm_send {T : Type} (chans : List (ChannelR T)) (ci idx : Nat) (v : T)
    (rest : List (SelectCase T)) :
    selectImmediate chans (SelectCase.send ci v :: rest) idx
      = if ((chans.getD ci (mkChannelR T 0)).trySend v).1
        then some (.sendCase idx, chans.set ci ((chans.getD ci (mkChannelR T 0)).trySend v).2)
        else selectImmediate chans rest (idx + 1) := rfl

theorem selImm_default {T : Type} (chans : List (ChannelR T)) (idx : Nat)
    (rest : List (SelectCase T)) :
    selectImmediate chans (SelectCase.default_ :: rest) idx
      = selectImmediate chans rest (idx + 1) := rfl

/-- The immediate pass returns the first immediately satisfiable case. -/
theorem selectImmediate_first {T : Type} (chans : List (ChannelR T)) :
    ∀ (cs : List (SelectCase T)) (idx i : Nat) (hi : i < cs.length),
      immSat chans (cs.get ⟨i, hi⟩) = true →
      (∀ j (hj : j < i), immSat chans (cs.get ⟨j, Nat.lt_trans hj hi⟩) = false) →
      ∃ chans2, selectImmediate chans cs idx
        = some (expectedWin chans (idx + i) (cs.get ⟨i, hi⟩), chans2) := by
  intro cs
  induction cs with
  | nil =>
    intro idx i hi
    exact absurd hi (by simp)
  | cons c rest ih =>
    intro idx i hi hsat hmin
    cases i with
    | zero =>
      have hc : (c :: rest).get ⟨0, hi⟩ = c := rfl
      rw [hc] at hsat ⊢
      cases c with
      | recv ci =>
        refine ⟨chans.set ci ((chans.getD ci (mkChannelR T 0)).tryReceive).2, ?_⟩
        rw [selImm_recv,
          if_pos (show (((chans.getD ci (mkChannelR T 0)).tryReceive).1).2 = true from hsat)]
        rfl
      | send ci v =>
        refine ⟨chans.set ci ((chans.getD ci (mkChannelR T 0)).trySend v).2, ?_⟩
        rw [selImm_send,
          if_pos (show ((chans.getD ci (mkChannelR T 0)).trySend v).1 = true from hsat)]
        rfl
      | default_ =>
        exact absurd hsat (by simp [immSat])
    | succ i2 =>
      have hlen : i2 < rest.length := by
        have : (c :: rest).length = rest.length + 1 := rfl
        omega
      have hget : (c :: rest).get ⟨i2 + 1, hi⟩ = rest.get ⟨i2, hlen⟩ := rfl
      have hc0 : immSat chans c = false := hmin 0 (by omega)
      have hmin2 : ∀ j (hj : j < i2),
          immSat chans (rest.get ⟨j, Nat.lt_trans hj hlen⟩) = false := by
        intro j hj
        have := hmin (j + 1) (by omega)
        exact this
      have harith : idx + 1 + i2 = idx + (i2 + 1) := by omega
      obtain ⟨chans2, hrec⟩ := ih (idx + 1) i2 hlen (hget ▸ hsat) hmin2
      refine ⟨chans2, ?_⟩
      rw [hget]
      cases c with
      | recv ci =>
        rw [selImm_recv, if_neg (by simp [immSat] at hc0; simp [hc0]), hrec, harith]
      | send ci v =>
        rw [selImm_send, if_neg (by simp [immSat] at hc0; simp [hc0]), hrec, harith]
      | default_ =>
        rw [selImm_default, hrec, harith]

/-- C5.  When several cases are immediately satisfiable, `select` commits to
the case listed earliest: if case `i` is satisfiable and every earlier case
is not, the result is case `i`'s result — in particular never a default
case, so a ready channel case always beats a coexisting default. -/
theorem claim_c5_select_precedence (chans : List (ChannelR Nat))
    (cs : List (SelectCase Nat)) (i : Nat) (hi : i < cs.length)
    (hsat : immSat chans (cs.get ⟨i, hi⟩) = true)
    (hmin : ∀ j (hj : j < i), immSat chans (cs.get ⟨j, Nat.lt_trans hj hi⟩) = false) :
    (select chans cs).1 = expectedWin chans i (cs.get ⟨i, hi⟩) ∧
      ∀ k, (select chans cs).1 ≠ SelectResult.defaultCase k := by
  obtain ⟨chans2, himm⟩ := selectImmediate_first chans cs 0 i hi hsat hmin
  have hz : (0 : Nat) + i = i := by omega
  rw [hz] at himm
  have hne : cs ≠ [] := by
    intro h
    rw [h] at hi
    exact absurd hi (by simp)
  have hsel : select chans cs = (expectedWin chans i (cs.get ⟨i, hi⟩), chans2) := by
    unfold select
    match cs, hi with
    | c :: rest, _ =>
      rw [himm]
  refine ⟨by rw [hsel], ?_⟩
  intro k
  rw [hsel]
  cases hcase : cs.get ⟨i, hi⟩ with
  | recv ci =>
    intro h
    exact SelectResult.noConfusion (show SelectResult.recvCase i
      (((chans.getD ci (mkChannelR Nat 0)).tryReceive).1).1 true
        = SelectResult.defaultCase k from h)
  | send ci v =>
    intro h
    exact SelectResult.noConfusion (show SelectResult.sendCase i
        = SelectResult.defaultCase k from h)
  | default_ =>
    rw [hcase] at hsat
    exact absurd hsat (by simp [immSat])

/-- Witness for C5: a buffered channel pre-loaded with 42 plus a default
case — select resolves via the channel case with the value, never via the
default. -/
theorem claim_c5_select_precedence_witness :
    immSat [ChannelR.mk [some 42] 1 0 0 1 false [] 0] (SelectCase.recv 0) = true ∧
      (select [ChannelR.mk [some 42] 1 0 0 1 false [] 0]
          [SelectCase.recv 0, SelectCase.default_]).1
        = SelectResult.recvCase 0 (some 42) true ∧
      ∀ k, (select [ChannelR.mk [some 42] 1 0 0 1 false [] 0]
          [SelectCase.recv 0, SelectCase.default_]).1 ≠ SelectResult.defaultCase k := by
  have h := claim_c5_select_precedence [ChannelR.mk [some 42] 1 0 0 1 false [] 0]
    [SelectCase.recv 0, SelectCase.default_] 0 (by decide) (by decide)
    (fun j hj => absurd hj (by omega))
  refine ⟨by decide, ?_, h.2⟩
  rw [h.1]
  decide

/-- Outcome of `Mutex.unlock`: a fatal usage error, a direct hand-off of the
lock to a woken waiter (identified by its FIFO position token), or a plain
release. -/
inductive UnlockOutcome where
  | error (msg : String)
  | handoff (waiter : Nat)
  | released
  deriving DecidableEq, Repr

/-- State of the Mutex class: the `_locked` flag and the FIFO `_waitQueue`
of suspended `lock` callers, represented by waiter identity tokens (the
stored continuations carry no payload). -/
structure Mutex where
  locked : Bool
  waitQueue : List Nat
  deriving DecidableEq, Repr

/-- Method `lock`: acquire when free; otherwise append the caller (token
`w`) to the back of the wait queue. -/
def Mutex.lock (m : Mutex) (w : Nat) : Bool × Mutex :=
  if !m.locked then
    (true, { m with locked := true })
  else
    (false, { m with waitQueue := m.waitQueue ++ [w] })

/-- Method `unlock`: fatal error when not locked; hand the lock to the
oldest waiter when one is queued (the flag stays `true`); otherwise clear
the flag. -/
def Mutex.unlock (m : Mutex) : UnlockOutcome × Mutex :=
  if !m.locked then
    (.error "Mutex: unlock of unlocked mutex", m)
  else
    match m.waitQueue with
    | next :: rest => (.handoff next, { m with waitQueue := rest })
    | [] => (.released, { m with locked := false })

/-- Method `tryLock`: non-suspending acquire. -/
def Mutex.tryLock (m : Mutex) : Bool × Mutex :=
  if m.locked then
    (false, m)
  else
    (true, { m with locked := true })

/-- C8.  `unlock` raises "unlock of unlocked mutex" when the mutex is not
locked (leaving the state unchanged); with a waiter queued it hands the
lock to the oldest (first-enqueued) waiter and `locked` stays true; only
with an empty queue does it set `locked` to false. -/
theorem claim_c8_mutex_unlock (m : Mutex) :
    (m.locked = false → m.unlock = (.error "Mutex: unlock of unlocked mutex", m)) ∧
      (∀ w rest, m.locked = true → m.waitQueue = w :: rest →
        m.unlock = (.handoff w, { locked := true, waitQueue := rest })) ∧
      (m.locked = true → m.waitQueue = [] →
        m.unlock = (.released, { locked := false, waitQueue := [] })) := by
  refine ⟨?_, ?_, ?_⟩
  · intro h
    unfold Mutex.unlock
    rw [if_pos (by simp [h])]
  · intro w rest h hq
    unfold Mutex.unlock
    rw [if_neg (by simp [h])]
    simp only [hq]
    rw [h]
  · intro h hq
    unfold Mutex.unlock
    rw [if_neg (by simp [h])]
    simp only [hq]

/-- Witness for C8 on concrete mutexes in each of the three situations. -/
theorem claim_c8_mutex_unlock_witness :
    (Mutex.mk false []).unlock = (.error "Mutex: unlock of unlocked mutex", Mutex.mk false []) ∧
      (Mutex.mk true [1, 2]).unlock = (.handoff 1, Mutex.mk true [2]) ∧
      (Mutex.mk true []).unlock = (.released, Mutex.mk false []) :=
  ⟨(claim_c8_mutex_unlock (Mutex.mk false [])).1 rfl,
    (claim_c8_mutex_unlock (Mutex.mk true [1, 2])).2.1 1 [2] rfl rfl,
    (claim_c8_mutex_unlock (Mutex.mk true [])).2.2 rfl rfl⟩

/-- Outcome of `WaitGroup.add`: success (with the number of waiters woken on
a zero crossing) or the fatal negative-counter error. -/
inductive AddOutcome where
  | ok (woken : Nat)
  | error (msg : String)
  deriving DecidableEq, Repr

/-- State of the WaitGroup class: the signed `#counter` and the number of
queued `wait` continuations. -/
structure WaitGroup where
  counter : Int
  waiters : Nat
  deriving DecidableEq, Repr

/-- Method `add`: the source first mutates `#counter += delta`, then throws
on a negative result, then wakes all waiters on an exact zero — so a failing
call leaves the already-negative counter behind. -/
def WaitGroup.add (wg : WaitGroup) (delta : Int) : AddOutcome × WaitGroup :=
  let c := wg.counter + delta
  if c < 0 then
    (.error "WaitGroup: negative counter", { wg with counter := c })
  else if c = 0 then
    (.ok wg.waiters, { counter := c, waiters := 0 })
  else
    (.ok 0, { wg with counter := c })

/-- Method `done`: `add(-1)`. -/
def WaitGroup.done (wg : WaitGroup) : AddOutcome × WaitGroup :=
  wg.add (-1)

/-- Getter `counter`. -/
def WaitGroup.counterGetter (wg : WaitGroup) : Int := wg.counter

/-- C7 counterexample.  `add(-1)` on a fresh WaitGroup raises the
"negative counter" error, yet afterwards the `counter` getter reads `-1`,
which is negative — the claim that the getter still shows a value `≥ 0`
after the failing call is false. -/
theorem claim_c7_counterexample :
    ((WaitGroup.mk 0 0).add (-1)).1 = .error "WaitGroup: negative counter" ∧
      (((WaitGroup.mk 0 0).add (-1)).2).counterGetter = -1 ∧
      ¬ (((WaitGroup.mk 0 0).add (-1)).2).counterGetter ≥ 0 := by
  refine ⟨rfl, rfl, by decide⟩

/-- C7 amended.  A call to `add(delta)` that would drive the counter below
zero raises the fatal "negative counter" error — but because the source
mutates the counter before the check, the `counter` getter afterwards shows
exactly the negative value `counter + delta`. -/
theorem claim_c7_waitgroup_negative (wg : WaitGroup) (delta : Int)
    (h : wg.counter + delta < 0) :
    (wg.add delta).1 = .error "WaitGroup: negative counter" ∧
      ((wg.add delta).2).counterGetter = wg.counter + delta ∧
      ((wg.add delta).2).counterGetter < 0 := by
  unfold WaitGroup.add
  rw [if_pos h]
  exact ⟨rfl, rfl, h⟩

/-- Witness for the amended C7. -/
theorem claim_c7_waitgroup_negative_witness :
    ((2 : Int) + (-5) < 0) ∧
      (((WaitGroup.mk 2 3).add (-5)).1 = .error "WaitGroup: negative counter" ∧
        (((WaitGroup.mk 2 3).add (-5)).2).counterGetter = 2 + (-5) ∧
        (((WaitGroup.mk 2 3).add (-5)).2).counterGetter < 0) :=
  ⟨by decide, claim_c7_waitgroup_negative (WaitGroup.mk 2 3) (-5) (by decide)⟩

/-- State of the RWMutex class: `_writeLocked`, `_readCount`, and the two
wait queues.  Queued continuations carry no payload (a queued reader's
thunk increments `_readCount` when resolved), so the queues are counted. -/
structure RWMutex where
  writeLocked : Bool
  readCount : Nat
  writeWaitQueue : Nat
  readWaitQueue : Nat
  deriving DecidableEq, Repr

/-- Fresh RWMutex. -/
def mkRWMutex : RWMutex :=
  { writeLocked := false, readCount := 0, writeWaitQueue := 0, readWaitQueue := 0 }

/-- Private helper `_processWaitQueue`: writers first — wake one queued
writer when no reader is active; otherwise wake ALL queued readers when no
writer holds the lock (each woken reader's thunk increments the count). -/
def RWMutex.processWaitQueue (m : RWMutex) : RWMutex :=
  if m.writeWaitQueue > 0 ∧ m.readCount = 0 then
    { m with writeWaitQueue := m.writeWaitQueue - 1, writeLocked := true }
  else if m.readWaitQueue > 0 ∧ m.writeLocked = false then
    { m with readCount := m.readCount + m.readWaitQueue, readWaitQueue := 0 }
  else m

/-- Method `lock`: acquire exclusively when no writer and no reader hold the
lock; otherwise queue as a writer. -/
def RWMutex.lock (m : RWMutex) : RWMutex :=
  if m.writeLocked = false ∧ m.readCount = 0 then
    { m with writeLocked := true }
  else
    { m with writeWaitQueue := m.writeWaitQueue + 1 }

/-- Method `unlock`: fatal error when no writer holds the lock; otherwise
clear the flag and re-evaluate the wait queues. -/
def RWMutex.unlock (m : RWMutex) : UnlockOutcome × RWMutex :=
  if m.writeLocked = false then
    (.error "RWMutex: unlock of unlocked write mutex", m)
  else
    (.released, RWMutex.processWaitQueue { m with writeLocked := false })

/-- Method `rlock`: acquire a read lock when no writer holds the lock and no
writer is queued (writer priority); otherwise queue as a reader. -/
def RWMutex.rlock (m : RWMutex) : RWMutex :=
  if m.writeLocked = false ∧ m.writeWaitQueue = 0 then
    { m with readCount := m.readCount + 1 }
  else
    { m with readWaitQueue := m.readWaitQueue + 1 }

/-- Method `runlock`: fatal error with no outstanding readers; otherwise
decrement and re-evaluate the queues when the last reader leaves. -/
def RWMutex.runlock (m : RWMutex) : UnlockOutcome × RWMutex :=
  if m.readCount = 0 then
    (.error "RWMutex: runlock of unlocked read mutex", m)
  else
    let m2 : RWMutex := { m with readCount := m.readCount - 1 }
    if m2.readCount = 0 then
      (.released, RWMutex.processWaitQueue m2)
    else
      (.released, m2)

/-- Method `tryLock`. -/
def RWMutex.tryLock (m : RWMutex) : Bool × RWMutex :=
  if m.writeLocked = true ∨ m.readCount > 0 then
    (false, m)
  else
    (true, { m with writeLocked := true })

/-- Method `tryRLock`. -/
def RWMutex.tryRLock (m : RWMutex) : Bool × RWMutex :=
  if m.writeLocked = true ∨ m.writeWaitQueue > 0 then
    (false, m)
  else
    (true, { m with readCount := m.readCount + 1 })

/-- RWMutex operations. -/
inductive RWOp where
  | lock
  | unlock
  | rlock
  | runlock
  | tryLock
  | tryRLock
  deriving DecidableEq, Repr

/-- One RWMutex operation (outcomes discarded). -/
def RWMutex.step (m : RWMutex) : RWOp → RWMutex
  | .lock => m.lock
  | .unlock => (m.unlock).2
  | .rlock => m.rlock
  | .runlock => (m.runlock).2
  | .tryLock => (m.tryLock).2
  | .tryRLock => (m.tryRLock).2

/-- A sequence of RWMutex operations. -/
def RWMutex.run (m : RWMutex) (ops : List RWOp) : RWMutex :=
  ops.foldl RWMutex.step m

/-- The write-exclusion invariant: a held write lock excludes readers. -/
def RWMutex.inv (m : RWMutex) : Prop :=
  m.writeLocked = true → m.readCount = 0

/-- `_processWaitQueue` preserves the write-exclusion invariant. -/
theorem RWMutex.pwq_inv (m : RWMutex) (h : m.inv) : (m.processWaitQueue).inv := by
  unfold RWMutex.processWaitQueue
  by_cases h1 : m.writeWaitQueue > 0 ∧ m.readCount = 0
  · rw [if_pos h1]
    intro _
    exact h1.2
  · rw [if_neg h1]
    by_cases h2 : m.readWaitQueue > 0 ∧ m.writeLocked = false
    · rw [if_pos h2]
      intro hx
      exact absurd (show m.writeLocked = true from hx) (by simp [h2.2])
    · rw [if_neg h2]
      exact h

/-- Every RWMutex operation preserves the write-exclusion invariant. -/
theorem RWMutex.step_inv (m : RWMutex) (op : RWOp) (h : m.inv) : (m.step op).inv := by
  cases op with
  | lock =>
    show (m.lock).inv
    unfold RWMutex.lock
    by_cases h1 : m.writeLocked = false ∧ m.readCount = 0
    · rw [if_pos h1]
      intro _
      exact h1.2
    · rw [if_neg h1]
      exact h
  | unlock =>
    show ((m.unlock).2).inv
    unfold RWMutex.unlock
    by_cases h1 : m.writeLocked = false
    · rw [if_pos h1]
      exact h
    · rw [if_neg h1]
      apply RWMutex.pwq_inv
      intro hx
      exact Bool.noConfusion (show false = true from hx)
  | rlock =>
    show (m.rlock).inv
    unfold RWMutex.rlock
    by_cases h1 : m.writeLocked = false ∧ m.writeWaitQueue = 0
    · rw [if_pos h1]
      intro hx
      exact absurd (show m.writeLocked = true from hx) (by simp [h1.1])
    · rw [if_neg h1]
      exact h
  | runlock =>
    show ((m.runlock).2).inv
    unfold RWMutex.runlock
    by_cases h1 : m.readCount = 0
    · rw [if_pos h1]
      exact h
    · rw [if_neg h1]
      by_cases h2 : m.readCount - 1 = 0
      · rw [if_pos (show ({ m with readCount := m.readCount - 1 } : RWMutex).readCount = 0 from h2)]
        apply RWMutex.pwq_inv
        intro _
        exact h2
      · rw [if_neg (show ¬ ({ m with readCount := m.readCount - 1 } : RWMutex).readCount = 0 from h2)]
        intro hx
        have := h hx
        omega
  | tryLock =>
    show ((m.tryLock).2).inv
    unfold RWMutex.tryLock
    by_cases h1 : m.writeLocked = true ∨ m.readCount > 0
    · rw [if_pos h1]
      exact h
    · rw [if_neg h1]
      intro _
      show m.readCount = 0
      have h2 : ¬ m.readCount > 0 := fun hc => h1 (Or.inr hc)
      omega
  | tryRLock =>
    show ((m.tryRLock).2).inv
    unfold RWMutex.tryRLock
    by_cases h1 : m.writeLocked = true ∨ m.writeWaitQueue > 0
    · rw [if_pos h1]
      exact h
    · rw [if_neg h1]
      intro hx
      exact absurd (show m.writeLocked = true from hx) (by
        intro hc
        exact h1 (Or.inl hc))

/-- C9.  In every state reachable by any sequence of RWMutex operations, a
held write lock implies zero outstanding read locks. -/
theorem claim_c9_rwmutex_exclusion (ops : List RWOp)
    (h : (mkRWMutex.run ops).writeLocked = true) :
    (mkRWMutex.run ops).readCount = 0 := by
  have hrun : ∀ (l : List RWOp) (m : RWMutex), m.inv → (m.run l).inv := by
    intro l
    induction l with
    | nil =>
      intro m hm
      exact hm
    | cons op rest ih =>
      intro m hm
      exact ih (m.step op) (RWMutex.step_inv m op hm)
  exact hrun ops mkRWMutex (fun hx => rfl) h

/-- Witness for C9 after a concrete sequence that takes the write lock. -/
theorem claim_c9_rwmutex_exclusion_witness :
    (mkRWMutex.run [RWOp.rlock, RWOp.runlock, RWOp.lock]).writeLocked = true ∧
      (mkRWMutex.run [RWOp.rlock, RWOp.runlock, RWOp.lock]).readCount = 0 :=
  ⟨by decide, claim_c9_rwmutex_exclusion [RWOp.rlock, RWOp.runlock, RWOp.lock] (by decide)⟩

/-- State of the Semaphore class: `_permits` and the wait-queue length. -/
structure Semaphore where
  permits : Nat
  waitQueue : Nat
  deriving DecidableEq, Repr

/-- Constructor: `Semaphore(permits)` with a non-negative permit count. -/
def mkSemaphore (permits : Nat) : Semaphore :=
  { permits := permits, waitQueue := 0 }

/-- Method `release`: hand the permit to the oldest waiter when one is
queued; otherwise increment the available permits unconditionally — there is
no error path and no cap at the construction value. -/
def Semaphore.release (s : Semaphore) : Semaphore :=
  if s.waitQueue > 0 then
    { s with waitQueue := s.waitQueue - 1 }
  else
    { s with permits := s.permits + 1 }

/-- `n` consecutive `release` calls. -/
def Semaphore.releaseN (s : Semaphore) : Nat → Semaphore
  | 0 => s
  | n + 1 => (s.release).releaseN n

/-- Getter `availablePermits`. -/
def Semaphore.availablePermits (s : Semaphore) : Nat := s.permits

/-- With no queued waiter, `release` adds one permit and errors never. -/
theorem Semaphore.releaseN_free :
    ∀ (n : Nat) (s : Semaphore), s.waitQueue = 0 →
      (s.releaseN n).permits = s.permits + n ∧ (s.releaseN n).waitQueue = 0 := by
  intro n
  induction n with
  | zero =>
    intro s hq
    exact ⟨rfl, hq⟩
  | succ n ih =>
    intro s hq
    have hrel : s.release = { s with permits := s.permits + 1 } := by
      unfold Semaphore.release
      rw [if_neg (by omega)]
    have := ih (s.release) (by rw [hrel]; exact hq)
    refine ⟨?_, ?_⟩
    · show ((s.release).releaseN n).permits = s.permits + (n + 1)
      rw [this.1, hrel]
      show s.permits + 1 + n = s.permits + (n + 1)
      omega
    · show ((s.release).releaseN n).waitQueue = 0
      exact this.2

/-- C10.  `release` is uncapped and never fails: releasing `n` times on a
fresh `Semaphore(K)` with no intervening acquire leaves `K + n` available
permits, and whenever no waiter is queued a single `release` unconditionally
increments the permit count (the source has no error path in `release`). -/
theorem claim_c10_semaphore_release (K n : Nat) (s : Semaphore) (hq : s.waitQueue = 0) :
    ((mkSemaphore K).releaseN n).availablePermits = K + n ∧
      (s.release).availablePermits = s.availablePermits + 1 := by
  constructor
  · exact (Semaphore.releaseN_free n (mkSemaphore K) rfl).1
  · show (s.release).permits = s.permits + 1
    unfold Semaphore.release
    rw [if_neg (by omega)]

/-- Witness for C10 with three releases on a two-permit semaphore. -/
theorem claim_c10_semaphore_release_witness :
    (Semaphore.mk 7 0).waitQueue = 0 ∧
      (((mkSemaphore 2).releaseN 3).availablePermits = 2 + 3 ∧
        ((Semaphore.mk 7 0).release).availablePermits = (Semaphore.mk 7 0).availablePermits + 1) :=
  ⟨rfl, claim_c10_semaphore_release 2 3 (Semaphore.mk 7 0) rfl⟩
